import Mathlib

/-!
Verification of the `456.py` startup script (apps/houdini/stow/common/scripts).

The script normalizes four filesystem-path environment variables across two
platforms using a fixed lookup table (first matching entry wins, the
substitution replaces every occurrence of the matched path), and exposes a
bridge function that resolves an upstream node by input index and delegates
to a host utility.

The embedding below models:
  * Python string operations used by the script (`in`, `str.replace`,
    `str.count`) on `List Char`, with Python semantics (replace all
    non-overlapping occurrences, scanning left to right);
  * the environment as a function `String → Option String` together with
    the ordered list of `putenv` writes performed;
  * `hou.pwd().inputs()[input_index]` as Python sequence indexing over an
    abstract list of nodes, and `loputils.fetchParameterValues` as an
    abstract function returning `Except`.
-/

set_option maxRecDepth 4000

/-! ### Data of the script: variable list, folder lookup table, platforms -/

/-- `var_list = ['JOB', 'POSE', 'SHOTS', 'ASSETS']`. -/
def var_list : List String := ["JOB", "POSE", "SHOTS", "ASSETS"]

/-- One row of `folder_lookup`: the pair of per-platform absolute paths. -/
structure PathPair where
  darwin : String
  windows : String
deriving DecidableEq

/-- Dictionary access `paths[platform]`; the script only ever uses the keys
`'darwin'` and `'Windows'`. -/
def PathPair.get (p : PathPair) (platform : String) : String :=
  if platform = "darwin" then p.darwin else p.windows

/-- The `'DROPBOX'` row of `folder_lookup`. -/
def DROPBOX : PathPair :=
  ⟨"/Users/suhail/Library/CloudStorage/Dropbox", "C:/Users/Suhail/Dropbox"⟩

/-- The `'USD_LIB'` row of `folder_lookup`. -/
def USD_LIB : PathPair :=
  ⟨"/Users/suhail/Library/CloudStorage/Dropbox/threeD/lib/usd",
   "C:/Users/Suhail/Dropbox/threeD/lib/usd"⟩

/-- The `'COURSES'` row of `folder_lookup`. -/
def COURSES : PathPair :=
  ⟨"/Users/suhail/Library/CloudStorage/Dropbox/threeD/courses",
   "C:/Users/Suhail/Dropbox/threeD/courses"⟩

/-- The `'PROJECTS'` row of `folder_lookup`. -/
def PROJECTS : PathPair :=
  ⟨"/Users/suhail/Library/CloudStorage/Dropbox/threeD/projects",
   "C:/Users/Suhail/Dropbox/threeD/projects"⟩

/-- `folder_lookup`, in insertion order (Python dicts iterate in insertion
order). -/
def folder_lookup : List (String × PathPair) :=
  [("DROPBOX", DROPBOX), ("USD_LIB", USD_LIB), ("COURSES", COURSES),
   ("PROJECTS", PROJECTS)]

/-- `current_platform = 'darwin' if sys.platform == 'darwin' else 'Windows'`,
parameterized by the value of `sys.platform`. -/
def current_platform (sys_platform : String) : String :=
  if sys_platform = "darwin" then "darwin" else "Windows"

/-- `other_platform = 'Windows' if current_platform == 'darwin' else 'darwin'`. -/
def other_platform (sys_platform : String) : String :=
  if current_platform sys_platform = "darwin" then "Windows" else "darwin"

/-! ### Python string primitives -/

/-- Python `pat in s` (substring test) on character lists. -/
def listContains (pat s : List Char) : Bool :=
  s.tails.any fun t => pat.isPrefixOf t

/-- Python `pat in s` on strings. -/
def containsSub (pat s : String) : Bool :=
  listContains pat.toList s.toList

/-- Core of Python `str.replace`: replace every non-overlapping occurrence of
`pat`, scanning left to right.  `fuel` bounds the recursion depth;
`pyReplace` passes the length of the string, which is always sufficient for a
non-empty `pat` because every step consumes at least one character (the
script only replaces non-empty paths). -/
def replaceCore (pat rep : List Char) : Nat → List Char → List Char
  | _, [] => []
  | 0, s => s
  | fuel+1, c :: cs =>
    if pat.isPrefixOf (c :: cs) then
      rep ++ replaceCore pat rep fuel ((c :: cs).drop pat.length)
    else
      c :: replaceCore pat rep fuel cs

/-- Python `s.replace(pat, rep)` (for the non-empty patterns the script
uses). -/
def pyReplace (s pat rep : String) : String :=
  ⟨replaceCore pat.toList rep.toList s.toList.length s.toList⟩

/-- Core of Python `s.count(pat)`: number of non-overlapping occurrences,
scanning left to right; same fuel discipline as `replaceCore`. -/
def countCore (pat : List Char) : Nat → List Char → Nat
  | _, [] => 0
  | 0, _ => 0
  | fuel+1, c :: cs =>
    if pat.isPrefixOf (c :: cs) then
      countCore pat fuel ((c :: cs).drop pat.length) + 1
    else
      countCore pat fuel cs

/-- Python `s.count(pat)` (for non-empty `pat`). -/
def pyCount (s pat : String) : Nat :=
  countCore pat.toList s.toList.length s.toList

/-! ### The environment normalizer -/

/-- The host environment store consumed by `hou.getenv` / `hou.putenv`. -/
abbrev Env := String → Option String

/-- The inner `for key, paths in folder_lookup.items()` loop body for one
variable value: the first entry whose other-platform path occurs in the value
produces the substituted value (then `break`); `none` means the loop fell
through without a write. -/
def scanEntries (other cur value : String) : List (String × PathPair) → Option String
  | [] => none
  | (_, paths) :: rest =>
    if containsSub (paths.get other) value then
      some (pyReplace value (paths.get other) (paths.get cur))
    else
      scanEntries other cur value rest

/-- Processing of one variable: `current_value = hou.getenv(var)`; the guard
`if current_value:` skips both an unset variable (`None`) and an empty string
(Python truthiness); otherwise the table is scanned.  The result is the value
written by `hou.putenv`, or `none` if no write happens. -/
def updateVar (sys_platform : String) (current_value : Option String) : Option String :=
  match current_value with
  | none => none
  | some v =>
    if v = "" then none
    else scanEntries (other_platform sys_platform) (current_platform sys_platform) v folder_lookup

/-- One iteration of the outer `for var in var_list` loop: the state is the
environment together with the ordered list of `hou.putenv` writes performed
so far (the write list is instrumentation recording each `putenv` call). -/
def updateStep (sys_platform : String) (st : Env × List (String × String)) (var : String) :
    Env × List (String × String) :=
  match updateVar sys_platform (st.1 var) with
  | none => st
  | some nv => (fun x => if x = var then some nv else st.1 x, st.2 ++ [(var, nv)])

/-- `update_environment_variables()`: fold the per-variable step over
`var_list`, returning the final environment and the list of writes. -/
def update_environment_variables (sys_platform : String) (env : Env) :
    Env × List (String × String) :=
  var_list.foldl (updateStep sys_platform) (env, [])

/-! ### The parameter bridge -/

/-- Python sequence indexing `xs[i]` (as used on the tuple returned by
`hou.pwd().inputs()`): negative indices count from the end; out-of-range
indices raise `IndexError`. -/
def pyIndex {α : Type} (xs : List α) (i : Int) : Except String α :=
  let j : Int := if i < 0 then i + xs.length else i
  if h : 0 ≤ j ∧ j.toNat < xs.length then Except.ok (xs.get ⟨j.toNat, h.2⟩)
  else Except.error "IndexError: tuple index out of range"

/-- `fetch_parameter_values(input_index, parameter_name)`: resolve
`hou.pwd().inputs()[input_index]` and delegate to
`loputils.fetchParameterValues`.  The host surface is abstract: `inputs` is
the tuple of upstream nodes and `fetchParameterValues` the host utility; any
error from either step is returned as-is (the Python code has no
`try`/`except`). -/
def fetch_parameter_values {Node Val : Type} (inputs : List Node)
    (fetchParameterValues : Node → String → Except String Val)
    (input_index : Int) (parameter_name : String) : Except String Val :=
  match pyIndex inputs input_index with
  | Except.error e => Except.error e
  | Except.ok node => fetchParameterValues node parameter_name

/-! ### Sanity examples (concrete evaluations of the embedding) -/

example : containsSub "C:/Users/Suhail/Dropbox" "C:/Users/Suhail/Dropbox/threeD" = true := by
  decide

example : pyReplace "C:/Users/Suhail/Dropbox/x" "C:/Users/Suhail/Dropbox"
    "/Users/suhail/Library/CloudStorage/Dropbox"
    = "/Users/suhail/Library/CloudStorage/Dropbox/x" := by decide

example : pyCount "abcabcab" "abc" = 2 := by decide

example : updateVar "darwin" (some "C:/Users/Suhail/Dropbox")
    = some "/Users/suhail/Library/CloudStorage/Dropbox" := by decide

example : updateVar "win32" (some "/Users/suhail/Library/CloudStorage/Dropbox/threeD/lib/usd/extra")
    = some "C:/Users/Suhail/Dropbox/threeD/lib/usd/extra" := by decide

example : updateVar "darwin" (some "/tmp/nothing") = none := by decide

example : pyIndex ([10, 20, 30] : List Nat) (-1) = Except.ok 30 := rfl

example : pyIndex ([] : List Nat) (-1) = Except.error "IndexError: tuple index out of range" := rfl

/-! ### Bridging lemmas for the string primitives -/

theorem listContains_iff {pat s : List Char} : listContains pat s = true ↔ pat <:+: s := by
  rw [listContains, List.any_eq_true, List.infix_iff_prefix_suffix]
  constructor
  · rintro ⟨t, ht, hp⟩
    exact ⟨t, by simpa using hp, (List.mem_tails _ _).mp ht⟩
  · rintro ⟨t, hp, ht⟩
    exact ⟨t, (List.mem_tails _ _).mpr ht, by simpa using hp⟩

theorem containsSub_iff {pat s : String} :
    containsSub pat s = true ↔ pat.toList <:+: s.toList := by
  rw [containsSub]; exact listContains_iff

theorem replaceCore_nil (pat rep : List Char) (fuel : Nat) :
    replaceCore pat rep fuel [] = [] := by
  cases fuel <;> rfl

theorem replaceCore_cons_pos {pat : List Char} (rep : List Char) {c : Char} {cs : List Char}
    (fuel : Nat) (h : pat.isPrefixOf (c :: cs) = true) :
    replaceCore pat rep (fuel+1) (c :: cs)
      = rep ++ replaceCore pat rep fuel ((c :: cs).drop pat.length) := by
  simp [replaceCore, h]

theorem replaceCore_cons_neg {pat : List Char} (rep : List Char) {c : Char} {cs : List Char}
    (fuel : Nat) (h : pat.isPrefixOf (c :: cs) = false) :
    replaceCore pat rep (fuel+1) (c :: cs) = c :: replaceCore pat rep fuel cs := by
  simp [replaceCore, h]

/-- Decomposition of a prefix of an append. -/
theorem prefixAppendCases {α : Type} {l a b : List α} (h : l <+: a ++ b) :
    l <+: a ∨ ∃ b₁, b₁ <+: b ∧ l = a ++ b₁ := by
  induction a generalizing l with
  | nil => exact Or.inr ⟨l, by simpa using h, by simp⟩
  | cons x a' ih =>
    cases l with
    | nil => exact Or.inl (by simp)
    | cons y l' =>
      rw [List.cons_append, List.cons_prefix_cons] at h
      obtain ⟨rfl, h'⟩ := h
      rcases ih h' with h1 | ⟨b₁, hb, rfl⟩
      · exact Or.inl (List.cons_prefix_cons.mpr ⟨rfl, h1⟩)
      · exact Or.inr ⟨b₁, hb, rfl⟩

/-- Decomposition of an occurrence inside an append: it lies in the left
part, in the right part, or crosses the boundary. -/
theorem infixAppendCases {α : Type} {l a b : List α} (h : l <:+: a ++ b) :
    l <:+: a ∨ l <:+: b ∨
      ∃ a₂ b₁, a₂ <:+ a ∧ a₂ ≠ [] ∧ b₁ <+: b ∧ l = a₂ ++ b₁ := by
  induction a generalizing l with
  | nil => exact Or.inr (Or.inl (by simpa using h))
  | cons x a' ih =>
    rw [List.cons_append, List.infix_cons_iff] at h
    rcases h with h | h
    · rcases prefixAppendCases (a := x :: a') h with h1 | ⟨b₁, hb, rfl⟩
      · exact Or.inl (List.infix_iff_prefix_suffix.mpr ⟨x :: a', h1, List.suffix_rfl⟩)
      · exact Or.inr (Or.inr ⟨x :: a', b₁, List.suffix_rfl, by simp, hb, rfl⟩)
    · rcases ih h with h1 | h2 | ⟨a₂, b₁, hs, hne, hb, rfl⟩
      · exact Or.inl (List.infix_cons h1)
      · exact Or.inr (Or.inl h2)
      · exact Or.inr (Or.inr ⟨a₂, b₁, hs.trans (List.suffix_cons x a'), hne, hb, rfl⟩)

/-- Stability of pattern-suffix prefixes under replacement: if no non-empty
suffix of `pat` is a prefix of `rep` and `rep` does not occur inside `pat`,
then a non-empty suffix of `pat` that is a prefix of the replaced string was
already a prefix of the original string.  This is the key step for showing
that the left-to-right scan misses no occurrence. -/
theorem prefixStable (pat rep : List Char)
    (H2 : ∀ x, x <:+ pat → x ≠ [] → ¬ x <+: rep)
    (H4 : ¬ rep <:+: pat) :
    ∀ fuel s, s.length ≤ fuel → ∀ q, q ≠ [] → q <:+ pat →
      q <+: replaceCore pat rep fuel s → q <+: s := by
  intro fuel
  induction fuel with
  | zero =>
    intro s hs q hq _ hpre
    have hsnil : s = [] := List.length_eq_zero.mp (Nat.le_zero.mp hs)
    subst hsnil
    rw [replaceCore_nil] at hpre
    exact absurd (List.prefix_nil.mp hpre) hq
  | succ n ih =>
    intro s hs q hq hqsuf hpre
    cases s with
    | nil =>
      rw [replaceCore_nil] at hpre
      exact absurd (List.prefix_nil.mp hpre) hq
    | cons c cs =>
      have hcs : cs.length ≤ n := by simp at hs; omega
      cases hm : pat.isPrefixOf (c :: cs) with
      | true =>
        rw [replaceCore_cons_pos rep n hm] at hpre
        rcases prefixAppendCases hpre with hqr | ⟨b₁, hb₁, rfl⟩
        · exact absurd hqr (H2 q hqsuf hq)
        · exact absurd
            (List.infix_iff_prefix_suffix.mpr ⟨rep ++ b₁, List.prefix_append rep b₁, hqsuf⟩) H4
      | false =>
        rw [replaceCore_cons_neg rep n hm] at hpre
        cases q with
        | nil => exact absurd rfl hq
        | cons y q' =>
          obtain ⟨rfl, hq'⟩ := List.cons_prefix_cons.mp hpre
          by_cases hq'e : q' = []
          · subst hq'e
            exact List.cons_prefix_cons.mpr ⟨rfl, by simp⟩
          · have hq'suf : q' <:+ pat := (List.suffix_cons y q').trans hqsuf
            have := ih cs hcs q' hq'e hq'suf hq'
            exact List.cons_prefix_cons.mpr ⟨rfl, this⟩

/-- After `replaceCore` has replaced every occurrence of `pat` by `rep`, no
occurrence of `pat` remains, provided `rep` cannot recreate one: no
non-empty suffix of `rep` is a prefix of `pat`, no non-empty suffix of `pat`
is a prefix of `rep`, and neither of `pat`, `rep` occurs inside the other. -/
theorem noOccur (pat rep : List Char) (hpat : pat ≠ [])
    (H1 : ∀ t, t <:+ rep → t ≠ [] → ¬ t <+: pat)
    (H2 : ∀ x, x <:+ pat → x ≠ [] → ¬ x <+: rep)
    (H3 : ¬ pat <:+: rep)
    (H4 : ¬ rep <:+: pat) :
    ∀ fuel s, s.length ≤ fuel → ¬ pat <:+: replaceCore pat rep fuel s := by
  intro fuel
  induction fuel with
  | zero =>
    intro s hs hocc
    have hsnil : s = [] := List.length_eq_zero.mp (Nat.le_zero.mp hs)
    subst hsnil
    rw [replaceCore_nil] at hocc
    exact hpat (by simpa using hocc)
  | succ n ih =>
    intro s hs hocc
    cases s with
    | nil =>
      rw [replaceCore_nil] at hocc
      exact hpat (by simpa using hocc)
    | cons c cs =>
      have hcs : cs.length ≤ n := by simp at hs; omega
      have hplen : 0 < pat.length := List.length_pos.mpr hpat
      cases hm : pat.isPrefixOf (c :: cs) with
      | true =>
        rw [replaceCore_cons_pos rep n hm] at hocc
        have hdroplen : ((c :: cs).drop pat.length).length ≤ n := by
          simp; omega
        rcases infixAppendCases hocc with h1 | h2 | ⟨a₂, b₁, hsuf, hne, hb, heq⟩
        · exact H3 h1
        · exact ih _ hdroplen h2
        · exact H1 a₂ hsuf hne (heq ▸ List.prefix_append a₂ b₁)
      | false =>
        rw [replaceCore_cons_neg rep n hm] at hocc
        rcases List.infix_cons_iff.mp hocc with h1 | h2
        · obtain ⟨p, pt, rfl⟩ : ∃ p pt, pat = p :: pt := by
            cases pat with
            | nil => exact absurd rfl hpat
            | cons p pt => exact ⟨p, pt, rfl⟩
          obtain ⟨rfl, hpre'⟩ := List.cons_prefix_cons.mp h1
          by_cases hpt : pt = []
          · subst hpt
            have htrue : ([p] : List Char).isPrefixOf (p :: cs) = true := by
              simp [List.isPrefixOf]
            simp [hm] at htrue
          · have := prefixStable (p :: pt) rep H2 H4 n cs hcs pt hpt
              (List.suffix_cons p pt) hpre'
            have htrue : (p :: pt).isPrefixOf (p :: cs) = true := by
              simpa using List.cons_prefix_cons.mpr ⟨(rfl : p = p), this⟩
            simp [hm] at htrue
        · exact ih cs hcs h2

/-- A positive non-overlapping occurrence count exhibits an occurrence. -/
theorem infixOfCountPos (pat : List Char) :
    ∀ fuel s, countCore pat fuel s ≠ 0 → pat <:+: s := by
  intro fuel
  induction fuel with
  | zero =>
    intro s h
    cases s with
    | nil => simp [countCore] at h
    | cons c cs => simp [countCore] at h
  | succ n ih =>
    intro s h
    cases s with
    | nil => simp [countCore] at h
    | cons c cs =>
      cases hm : pat.isPrefixOf (c :: cs) with
      | true =>
        exact List.infix_iff_prefix_suffix.mpr ⟨c :: cs, by simpa using hm, List.suffix_rfl⟩
      | false =>
        simp only [countCore, hm, if_neg Bool.false_ne_true] at h
        exact List.infix_cons (ih cs h)

/-! ### The inner scan is first-match-wins -/

/-- The inner loop over the table (with its `break`) computes exactly the
substitution for the first entry whose other-platform path occurs in the
value. -/
theorem scanEntries_eq_find (other cur value : String) (l : List (String × PathPair)) :
    scanEntries other cur value l
      = (l.find? fun en => containsSub ((en.2).get other) value).map
          fun en => pyReplace value ((en.2).get other) ((en.2).get cur) := by
  induction l with
  | nil => rfl
  | cons e rest ih =>
    obtain ⟨k, paths⟩ := e
    cases h : containsSub (paths.get other) value with
    | true => simp [scanEntries, h, List.find?]
    | false => simp [scanEntries, h, List.find?, ih]

/-! ### Lemmas on the outer fold over the variable list -/

/-- Variables outside the scanned list are never touched. -/
theorem foldEnv_notMem (sp : String) (l : List String) :
    ∀ (st : Env × List (String × String)) (x : String), x ∉ l →
      (l.foldl (updateStep sp) st).1 x = st.1 x := by
  induction l with
  | nil => intro st x _; rfl
  | cons y l' ih =>
    intro st x hx
    have hxy : x ≠ y := fun h => hx (h ▸ List.mem_cons_self y l')
    have hxl : x ∉ l' := fun h => hx (List.mem_cons_of_mem y h)
    rw [List.foldl_cons, ih _ x hxl]
    cases hup : updateVar sp (st.1 y) with
    | none => simp [updateStep, hup]
    | some nv => simp [updateStep, hup, hxy]

/-- For a variable in the scanned list (all names distinct), the final value
is determined by its original value alone. -/
theorem foldEnv_mem (sp : String) (l : List String) :
    ∀ (st : Env × List (String × String)) (x : String), l.Nodup → x ∈ l →
      (l.foldl (updateStep sp) st).1 x
        = (match updateVar sp (st.1 x) with
           | none => st.1 x
           | some nv => some nv) := by
  induction l with
  | nil => intro st x _ hx; cases hx
  | cons y l' ih =>
    intro st x hnd hx
    have hy : y ∉ l' := (List.nodup_cons.mp hnd).1
    have hnd' : l'.Nodup := (List.nodup_cons.mp hnd).2
    rcases List.mem_cons.mp hx with rfl | hx'
    · rw [List.foldl_cons, foldEnv_notMem sp l' _ x hy]
      cases hup : updateVar sp (st.1 x) with
      | none => simp [updateStep, hup]
      | some nv => simp [updateStep, hup]
    · have hxy : x ≠ y := fun h => hy (h ▸ hx')
      rw [List.foldl_cons, ih _ x hnd' hx']
      cases hup : updateVar sp (st.1 y) with
      | none => simp [updateStep, hup]
      | some nv => simp [updateStep, hup, hxy]

/-- Every write recorded by the fold is either pre-existing or was produced
by `updateVar` on the original value of a listed variable. -/
theorem foldWrites_mem (sp : String) (l : List String) :
    ∀ (st : Env × List (String × String)) (p : String × String), l.Nodup →
      p ∈ (l.foldl (updateStep sp) st).2 →
      p ∈ st.2 ∨ (p.1 ∈ l ∧ updateVar sp (st.1 p.1) = some p.2) := by
  induction l with
  | nil => intro st p _ hp; exact Or.inl hp
  | cons y l' ih =>
    intro st p hnd hp
    have hy : y ∉ l' := (List.nodup_cons.mp hnd).1
    have hnd' : l'.Nodup := (List.nodup_cons.mp hnd).2
    rw [List.foldl_cons] at hp
    rcases ih _ p hnd' hp with hmem | ⟨hmem, hupd⟩
    · cases hup : updateVar sp (st.1 y) with
      | none =>
        rw [updateStep, hup] at hmem
        exact Or.inl hmem
      | some nv =>
        rw [updateStep, hup] at hmem
        simp only [List.mem_append, List.mem_singleton] at hmem
        rcases hmem with hmem | rfl
        · exact Or.inl hmem
        · exact Or.inr ⟨List.mem_cons_self y l', hup⟩
    · have hxy : p.1 ≠ y := fun h => hy (h ▸ hmem)
      cases hup : updateVar sp (st.1 y) with
      | none =>
        rw [updateStep, hup] at hupd
        exact Or.inr ⟨List.mem_cons_of_mem y hmem, hupd⟩
      | some nv =>
        rw [updateStep, hup] at hupd
        simp only [hxy, if_neg] at hupd
        exact Or.inr ⟨List.mem_cons_of_mem y hmem, hupd⟩

/-- The names of the recorded writes form a sublist of the accumulated names
followed by the scanned variable names (hence each variable is written at
most once). -/
theorem foldWrites_names (sp : String) (l : List String) :
    ∀ (st : Env × List (String × String)),
      List.Sublist (((l.foldl (updateStep sp) st).2).map Prod.fst) ((st.2.map Prod.fst) ++ l) := by
  induction l with
  | nil => intro st; simp
  | cons y l' ih =>
    intro st
    rw [List.foldl_cons]
    cases hup : updateVar sp (st.1 y) with
    | none =>
      refine (ih _).trans ?_
      rw [updateStep, hup]
      exact List.Sublist.append_left (List.sublist_cons_self y l') _
    | some nv =>
      refine (ih _).trans ?_
      rw [updateStep, hup]
      simp only [List.map_append, List.map_cons, List.map_nil]
      rw [List.append_assoc]
      exact List.Sublist.refl _

/-- The fold reads only the variables in the scanned list: two environments
agreeing on those variables produce identical write lists. -/
theorem foldWrites_reads (sp : String) (l : List String) :
    ∀ (st₁ st₂ : Env × List (String × String)),
      (∀ v ∈ l, st₁.1 v = st₂.1 v) → st₁.2 = st₂.2 →
      (l.foldl (updateStep sp) st₁).2 = (l.foldl (updateStep sp) st₂).2 := by
  induction l with
  | nil => intro st₁ st₂ _ h2; exact h2
  | cons y l' ih =>
    intro st₁ st₂ h1 h2
    have hyv : st₁.1 y = st₂.1 y := h1 y (List.mem_cons_self y l')
    rw [List.foldl_cons, List.foldl_cons]
    cases hup : updateVar sp (st₂.1 y) with
    | none =>
      have hst : updateStep sp st₁ y = st₁ ∧ updateStep sp st₂ y = st₂ := by
        constructor <;> simp [updateStep, hyv, hup]
      rw [hst.1, hst.2]
      exact ih st₁ st₂ (fun v hv => h1 v (List.mem_cons_of_mem y hv)) h2
    | some nv =>
      apply ih
      · intro v hv
        simp only [updateStep, hyv, hup]
        by_cases hvy : v = y <;> simp [hvy, h1 v (List.mem_cons_of_mem y hv)]
      · simp [updateStep, hyv, hup, h2]

/-- If no scanned variable produces a write, the fold is the identity. -/
theorem foldNoWrites (sp : String) (l : List String) :
    ∀ (st : Env × List (String × String)),
      (∀ v ∈ l, updateVar sp (st.1 v) = none) →
      l.foldl (updateStep sp) st = st := by
  induction l with
  | nil => intro st _; rfl
  | cons y l' ih =>
    intro st h
    rw [List.foldl_cons]
    have hst : updateStep sp st y = st := by
      simp [updateStep, h y (List.mem_cons_self y l')]
    rw [hst]
    exact ih st fun v hv => h v (List.mem_cons_of_mem y hv)

/-! ### Platform resolution facts -/

theorem current_platform_darwin : current_platform "darwin" = "darwin" := rfl

theorem current_platform_of_ne {sp : String} (h : sp ≠ "darwin") :
    current_platform sp = "Windows" := by
  simp [current_platform, h]

theorem other_platform_darwin : other_platform "darwin" = "Windows" := rfl

theorem other_platform_of_ne {sp : String} (h : sp ≠ "darwin") :
    other_platform sp = "darwin" := by
  simp [other_platform, current_platform, h]

/-! ### Facts about the concrete lookup table -/

theorem forallSuffixes {P : List Char → Prop} {l : List Char}
    (h : ∀ t ∈ l.tails, P t) : ∀ t, t <:+ l → P t :=
  fun t ht => h t ((List.mem_tails t l).mpr ht)

/-- For either platform, the DROPBOX path of the other platform (the
pattern) and of the current platform (the replacement) cannot recreate an
occurrence of the pattern: the pattern is non-empty, no non-empty suffix of
either is a prefix of the other, and neither occurs inside the other. -/
theorem dropboxFacts (sp : String) :
    (DROPBOX.get (other_platform sp)).toList ≠ [] ∧
    (∀ t, t <:+ (DROPBOX.get (current_platform sp)).toList → t ≠ [] →
        ¬ t <+: (DROPBOX.get (other_platform sp)).toList) ∧
    (∀ x, x <:+ (DROPBOX.get (other_platform sp)).toList → x ≠ [] →
        ¬ x <+: (DROPBOX.get (current_platform sp)).toList) ∧
    ¬ (DROPBOX.get (other_platform sp)).toList <:+:
        (DROPBOX.get (current_platform sp)).toList ∧
    ¬ (DROPBOX.get (current_platform sp)).toList <:+:
        (DROPBOX.get (other_platform sp)).toList := by
  by_cases h : sp = "darwin"
  · subst h
    exact ⟨by decide, forallSuffixes (by decide), forallSuffixes (by decide),
      by decide, by decide⟩
  · rw [other_platform_of_ne h, current_platform_of_ne h]
    exact ⟨by decide, forallSuffixes (by decide), forallSuffixes (by decide),
      by decide, by decide⟩

/-- The other-platform DROPBOX path is a prefix of every entry's
other-platform path. -/
theorem dropboxLeadsEntries (sp : String) :
    ∀ en ∈ folder_lookup,
      (DROPBOX.get (other_platform sp)).toList <+: ((en.2).get (other_platform sp)).toList := by
  by_cases h : sp = "darwin"
  · subst h; decide
  · rw [other_platform_of_ne h]; decide

/-- A value matched by any entry is matched by the DROPBOX entry. -/
theorem dropboxMatchesOfEntry (sp v : String) {en : String × PathPair}
    (hen : en ∈ folder_lookup)
    (h : containsSub ((en.2).get (other_platform sp)) v = true) :
    containsSub (DROPBOX.get (other_platform sp)) v = true := by
  rw [containsSub_iff] at h ⊢
  exact (List.infix_iff_prefix_suffix.mpr
    ⟨_, dropboxLeadsEntries sp en hen, List.suffix_rfl⟩).trans h

/-- When the DROPBOX entry matches, the scan stops at it (it is first). -/
theorem findEqDropbox (sp v : String)
    (h : containsSub (DROPBOX.get (other_platform sp)) v = true) :
    (folder_lookup.find? fun en => containsSub ((en.2).get (other_platform sp)) v)
      = some ("DROPBOX", DROPBOX) := by
  rw [folder_lookup]
  exact List.find?_cons_of_pos _ h

/-- The replaced value contains no occurrence of the other-platform DROPBOX
path any more. -/
theorem pyReplaceDropboxNoOccur (sp v : String) :
    ¬ (DROPBOX.get (other_platform sp)).toList <:+:
      (pyReplace v (DROPBOX.get (other_platform sp))
        (DROPBOX.get (current_platform sp))).toList := by
  obtain ⟨hne, h1, h2, h3, h4⟩ := dropboxFacts sp
  exact noOccur _ _ hne h1 h2 h3 h4 v.toList.length v.toList (le_refl _)

/-- Characterization of a successful per-variable update: the value was
non-empty, the DROPBOX entry matched (it is first and matches whenever any
entry does), and the written value is the DROPBOX substitution. -/
theorem updateVarSome (sp v nv : String) (h : updateVar sp (some v) = some nv) :
    v ≠ "" ∧ containsSub (DROPBOX.get (other_platform sp)) v = true ∧
    nv = pyReplace v (DROPBOX.get (other_platform sp)) (DROPBOX.get (current_platform sp)) := by
  rw [updateVar] at h
  by_cases hv : v = ""
  · simp [hv] at h
  · rw [if_neg hv, scanEntries_eq_find] at h
    cases hf : folder_lookup.find? fun en => containsSub ((en.2).get (other_platform sp)) v with
    | none => rw [hf] at h; simp at h
    | some en =>
      have hen : en ∈ folder_lookup := List.mem_of_find?_eq_some hf
      have hpred := List.find?_some hf
      have hdb : containsSub (DROPBOX.get (other_platform sp)) v = true :=
        dropboxMatchesOfEntry sp v hen (by simpa using hpred)
      rw [findEqDropbox sp v hdb] at hf
      injection hf with hf
      subst hf
      rw [findEqDropbox sp v hdb] at h
      simp at h
      exact ⟨hv, hdb, h.symm⟩

/-- A second pass over an already-substituted value writes nothing. -/
theorem updateVarOnReplaced (sp v : String) :
    updateVar sp (some (pyReplace v (DROPBOX.get (other_platform sp))
      (DROPBOX.get (current_platform sp)))) = none := by
  rw [updateVar]
  by_cases hnv : pyReplace v (DROPBOX.get (other_platform sp))
      (DROPBOX.get (current_platform sp)) = ""
  · rw [if_pos hnv]
  · rw [if_neg hnv, scanEntries_eq_find]
    have hnone : (folder_lookup.find? fun en =>
        containsSub ((en.2).get (other_platform sp))
          (pyReplace v (DROPBOX.get (other_platform sp))
            (DROPBOX.get (current_platform sp)))) = none := by
      rw [List.find?_eq_none]
      intro en hen hpred
      exact pyReplaceDropboxNoOccur sp v
        (containsSub_iff.mp (dropboxMatchesOfEntry sp _ hen (by simpa using hpred)))
    rw [hnone]
    rfl

/-- After one run, no listed variable can be updated again. -/
theorem updateVarAfterRun (sp : String) (env : Env) (var : String) (hvar : var ∈ var_list) :
    updateVar sp ((update_environment_variables sp env).1 var) = none := by
  have hnd : var_list.Nodup := by decide
  rw [update_environment_variables, foldEnv_mem sp var_list _ var hnd hvar]
  cases ho : (env, ([] : List (String × String))).1 var with
  | none => rfl
  | some v =>
    cases hup : updateVar sp (some v) with
    | none => exact hup
    | some nv =>
      obtain ⟨hv, hdb, rfl⟩ := updateVarSome sp v nv hup
      exact updateVarOnReplaced sp v

/-- After one run, a variable that was present with value `v` holds the
substitution determined by the first matching table entry, or `v` itself if
no entry matches (an empty `v` matches no entry, and the truthiness guard
skips it, so the equation also holds for `v = ""`). -/
theorem envAfterRun (sp : String) (env : Env) (var v : String)
    (hvar : var ∈ var_list) (hv : env var = some v) :
    (update_environment_variables sp env).1 var
      = match folder_lookup.find? fun en => containsSub ((en.2).get (other_platform sp)) v with
        | some en => some (pyReplace v ((en.2).get (other_platform sp))
            ((en.2).get (current_platform sp)))
        | none => some v := by
  have hnd : var_list.Nodup := by decide
  rw [update_environment_variables, foldEnv_mem sp var_list _ var hnd hvar]
  show (match updateVar sp (env var) with | none => env var | some nv => some nv) = _
  rw [hv]
  simp only [updateVar]
  by_cases hve : v = ""
  · subst hve
    rw [if_pos rfl]
    have hf : (folder_lookup.find? fun en =>
        containsSub ((en.2).get (other_platform sp)) "") = none := by
      rw [List.find?_eq_none]
      intro en hen hpred
      have hinf : ((en.2).get (other_platform sp)).toList <:+: ([] : List Char) :=
        containsSub_iff.mp (by simpa using hpred)
      have hnil : ((en.2).get (other_platform sp)).toList = [] := by simpa using hinf
      have hpre := dropboxLeadsEntries sp en hen
      rw [hnil] at hpre
      exact (dropboxFacts sp).1 (List.prefix_nil.mp hpre)
    rw [hf]
  · rw [if_neg hve, scanEntries_eq_find]
    cases hf : folder_lookup.find? fun en =>
        containsSub ((en.2).get (other_platform sp)) v with
    | none => rfl
    | some en => rfl

/-- The per-variable update yields no write when no table entry matches. -/
theorem updateVarNone (sp v : String)
    (hnom : ∀ en ∈ folder_lookup,
      containsSub ((en.2).get (other_platform sp)) v = false) :
    updateVar sp (some v) = none := by
  rw [updateVar]
  by_cases hve : v = ""
  · rw [if_pos hve]
  · rw [if_neg hve, scanEntries_eq_find,
      List.find?_eq_none.mpr fun en hen => by simp [hnom en hen]]
    rfl

/-! ### Claims -/

/-- C1: for every listed variable whose value is present, the run scans the
table entries in insertion order and applies exactly the substitution of the
first entry whose other-platform path occurs in the value (writing the
result back and stopping), leaving the value unchanged when no entry
matches. -/
theorem claim_C1 (sp : String) (env : Env) (var v : String)
    (hvar : var ∈ var_list) (hv : env var = some v) :
    (update_environment_variables sp env).1 var
      = match folder_lookup.find? fun en => containsSub ((en.2).get (other_platform sp)) v with
        | some en => some (pyReplace v ((en.2).get (other_platform sp))
            ((en.2).get (current_platform sp)))
        | none => some v :=
  envAfterRun sp env var v hvar hv

/-- Witness for C1: a value containing the other-platform paths of both the
DROPBOX and the USD_LIB groups gets exactly the DROPBOX (first) substitution. -/
theorem claim_C1_witness :
    (update_environment_variables "darwin"
        (fun x => if x = "JOB" then some "C:/Users/Suhail/Dropbox/threeD/lib/usd" else none)).1 "JOB"
      = match folder_lookup.find? fun en =>
            containsSub ((en.2).get (other_platform "darwin"))
              "C:/Users/Suhail/Dropbox/threeD/lib/usd" with
        | some en => some (pyReplace "C:/Users/Suhail/Dropbox/threeD/lib/usd"
            ((en.2).get (other_platform "darwin")) ((en.2).get (current_platform "darwin")))
        | none => some "C:/Users/Suhail/Dropbox/threeD/lib/usd" :=
  claim_C1 "darwin" (fun x => if x = "JOB" then some "C:/Users/Suhail/Dropbox/threeD/lib/usd" else none)
    "JOB" "C:/Users/Suhail/Dropbox/threeD/lib/usd" (by decide) (by decide)

/-- C2: an exact other-platform DROPBOX value becomes the current-platform
DROPBOX path, and an other-platform USD_LIB value with suffix `/extra`
becomes the current-platform USD_LIB path with the same suffix. -/
theorem claim_C2 (sp : String) (env : Env) (var v : String)
    (hvar : var ∈ var_list) (hv : env var = some v) :
    (v = DROPBOX.get (other_platform sp) →
      (update_environment_variables sp env).1 var
        = some (DROPBOX.get (current_platform sp))) ∧
    (v = USD_LIB.get (other_platform sp) ++ "/extra" →
      (update_environment_variables sp env).1 var
        = some (USD_LIB.get (current_platform sp) ++ "/extra")) := by
  constructor
  · intro hveq
    subst hveq
    rw [envAfterRun sp env var _ hvar hv]
    by_cases h : sp = "darwin"
    · subst h; decide
    · rw [other_platform_of_ne h, current_platform_of_ne h]; decide
  · intro hveq
    subst hveq
    rw [envAfterRun sp env var _ hvar hv]
    by_cases h : sp = "darwin"
    · subst h; decide
    · rw [other_platform_of_ne h, current_platform_of_ne h]; decide

/-- Witness for C2: both branches at concrete platforms and environments. -/
theorem claim_C2_witness :
    (update_environment_variables "darwin"
        (fun x => if x = "POSE" then some "C:/Users/Suhail/Dropbox" else none)).1 "POSE"
      = some (DROPBOX.get (current_platform "darwin")) ∧
    (update_environment_variables "win32"
        (fun x => if x = "SHOTS"
          then some "/Users/suhail/Library/CloudStorage/Dropbox/threeD/lib/usd/extra"
          else none)).1 "SHOTS"
      = some (USD_LIB.get (current_platform "win32") ++ "/extra") :=
  ⟨(claim_C2 "darwin" (fun x => if x = "POSE" then some "C:/Users/Suhail/Dropbox" else none)
      "POSE" "C:/Users/Suhail/Dropbox" (by decide) (by decide)).1 (by decide),
   (claim_C2 "win32" (fun x => if x = "SHOTS"
        then some "/Users/suhail/Library/CloudStorage/Dropbox/threeD/lib/usd/extra"
        else none)
      "SHOTS" "/Users/suhail/Library/CloudStorage/Dropbox/threeD/lib/usd/extra"
      (by decide) (by decide)).2 (by decide)⟩

/-- C4: a present value in which no table entry's other-platform path occurs
is left unchanged, and no write is performed for that variable. -/
theorem claim_C4 (sp : String) (env : Env) (var v : String)
    (hvar : var ∈ var_list) (hv : env var = some v)
    (hnom : ∀ en ∈ folder_lookup,
      containsSub ((en.2).get (other_platform sp)) v = false) :
    (update_environment_variables sp env).1 var = some v ∧
    ∀ p ∈ (update_environment_variables sp env).2, p.1 ≠ var := by
  constructor
  · rw [envAfterRun sp env var v hvar hv,
      List.find?_eq_none.mpr fun en hen => by simp [hnom en hen]]
  · intro p hp heq
    have hnd : var_list.Nodup := by decide
    rcases foldWrites_mem sp var_list (env, []) p hnd hp with hmem | ⟨_, hupd⟩
    · exact absurd hmem (List.not_mem_nil p)
    · rw [heq] at hupd
      show False
      have : updateVar sp (env var) = some p.2 := hupd
      rw [hv, updateVarNone sp v hnom] at this
      exact Option.noConfusion this

/-- Witness for C4: an unrelated path is untouched and unwritten. -/
theorem claim_C4_witness :
    (update_environment_variables "darwin"
        (fun x => if x = "ASSETS" then some "/some/unrelated/path" else none)).1 "ASSETS"
      = some "/some/unrelated/path" ∧
    ∀ p ∈ (update_environment_variables "darwin"
        (fun x => if x = "ASSETS" then some "/some/unrelated/path" else none)).2,
      p.1 ≠ "ASSETS" :=
  claim_C4 "darwin" (fun x => if x = "ASSETS" then some "/some/unrelated/path" else none)
    "ASSETS" "/some/unrelated/path" (by decide) (by decide) (by decide)

/-- C5: a variable the environment does not define is skipped: no write is
performed for it and it stays undefined (no error path exists in the
embedding, the update is total). -/
theorem claim_C5 (sp : String) (env : Env) (var : String)
    (hvar : var ∈ var_list) (hnone : env var = none) :
    (update_environment_variables sp env).1 var = none ∧
    ∀ p ∈ (update_environment_variables sp env).2, p.1 ≠ var := by
  have hnd : var_list.Nodup := by decide
  constructor
  · rw [update_environment_variables, foldEnv_mem sp var_list _ var hnd hvar]
    show (match updateVar sp (env var) with | none => env var | some nv => some nv) = none
    rw [hnone]
    rfl
  · intro p hp heq
    rcases foldWrites_mem sp var_list (env, []) p hnd hp with hmem | ⟨_, hupd⟩
    · exact absurd hmem (List.not_mem_nil p)
    · rw [heq] at hupd
      have : updateVar sp (env var) = some p.2 := hupd
      rw [hnone] at this
      exact Option.noConfusion this

/-- Witness for C5: an empty environment yields no writes and no values. -/
theorem claim_C5_witness :
    (update_environment_variables "darwin" (fun _ => none)).1 "JOB" = none ∧
    ∀ p ∈ (update_environment_variables "darwin" (fun _ => none)).2, p.1 ≠ "JOB" :=
  claim_C5 "darwin" (fun _ => none) "JOB" (by decide) rfl

/-- C3: `fetch_parameter_values` performs no catching, translation or
wrapping: an index at or beyond the number of inputs makes the resolution
step produce an error, any resolution error is returned to the caller
unchanged, and any error of the host parameter-fetch utility is returned to
the caller unchanged. -/
theorem claim_C3 {Node Val : Type} (inputs : List Node)
    (fpv : Node → String → Except String Val) (input_index : Int)
    (parameter_name : String) :
    ((inputs.length : Int) ≤ input_index →
      ∃ msg, pyIndex inputs input_index = Except.error msg) ∧
    (∀ e, pyIndex inputs input_index = Except.error e →
      fetch_parameter_values inputs fpv input_index parameter_name = Except.error e) ∧
    (∀ node e, pyIndex inputs input_index = Except.ok node →
      fpv node parameter_name = Except.error e →
      fetch_parameter_values inputs fpv input_index parameter_name = Except.error e) := by
  refine ⟨?_, ?_, ?_⟩
  · intro hlen
    refine ⟨"IndexError: tuple index out of range", ?_⟩
    have hnneg : ¬ input_index < 0 := by omega
    have hcond : ¬ (0 ≤ input_index ∧ input_index.toNat < inputs.length) := by omega
    simp only [pyIndex, hnneg, if_false]
    rw [dif_neg hcond]
  · intro e he
    rw [fetch_parameter_values, he]
  · intro node e hn hf
    rw [fetch_parameter_values, hn]
    exact hf

/-- Witness for C3: a one-element input tuple with an erroring host utility;
index 3 is out of range and its `IndexError` is returned unchanged, index 0
resolves and the utility error is returned unchanged. -/
theorem claim_C3_witness :
    (∃ msg, pyIndex ([5] : List Nat) 3 = Except.error msg) ∧
    fetch_parameter_values ([5] : List Nat)
        (fun _ _ => (Except.error "ParmNotFound" : Except String Nat)) 3 "x"
      = Except.error "IndexError: tuple index out of range" ∧
    fetch_parameter_values ([5] : List Nat)
        (fun _ _ => (Except.error "ParmNotFound" : Except String Nat)) 0 "x"
      = Except.error "ParmNotFound" :=
  ⟨(claim_C3 ([5] : List Nat) (fun _ _ => (Except.error "ParmNotFound" : Except String Nat))
      3 "x").1 (by decide),
   (claim_C3 ([5] : List Nat) (fun _ _ => (Except.error "ParmNotFound" : Except String Nat))
      3 "x").2.1 "IndexError: tuple index out of range" rfl,
   (claim_C3 ([5] : List Nat) (fun _ _ => (Except.error "ParmNotFound" : Except String Nat))
      0 "x").2.2 5 "ParmNotFound" rfl rfl⟩

/-- C6: on a valid non-negative index, `fetch_parameter_values` resolves the
node at that input slot, passes it with the parameter name to the host
utility, and returns the utility's result unmodified. -/
theorem claim_C6 {Node Val : Type} (inputs : List Node)
    (fpv : Node → String → Except String Val) (input_index : Int)
    (parameter_name : String) (h0 : 0 ≤ input_index)
    (h : input_index.toNat < inputs.length) :
    pyIndex inputs input_index = Except.ok (inputs.get ⟨input_index.toNat, h⟩) ∧
    fetch_parameter_values inputs fpv input_index parameter_name
      = fpv (inputs.get ⟨input_index.toNat, h⟩) parameter_name := by
  have hnneg : ¬ input_index < 0 := by omega
  have hpy : pyIndex inputs input_index
      = Except.ok (inputs.get ⟨input_index.toNat, h⟩) := by
    simp only [pyIndex, hnneg, if_false]
    rw [dif_pos ⟨h0, h⟩]
  exact ⟨hpy, by rw [fetch_parameter_values, hpy]⟩

/-- Witness for C6: input slot 1 of a two-node tuple is resolved and the
canned utility result is returned unmodified. -/
theorem claim_C6_witness :
    pyIndex ([7, 8] : List Nat) 1 = Except.ok 8 ∧
    fetch_parameter_values ([7, 8] : List Nat)
        (fun n s => (Except.ok (n, s) : Except String (Nat × String))) 1 "primpath"
      = Except.ok (8, "primpath") :=
  ⟨(claim_C6 ([7, 8] : List Nat)
      (fun n s => (Except.ok (n, s) : Except String (Nat × String))) 1 "primpath"
      (by decide) (by decide)).1,
   (claim_C6 ([7, 8] : List Nat)
      (fun n s => (Except.ok (n, s) : Except String (Nat × String))) 1 "primpath"
      (by decide) (by decide)).2⟩

/-- C7: platform resolution is total with no failure mode: the current
platform is `darwin` exactly for the identifier `darwin` and `Windows` for
any other identifier (including `linux`), and the other platform is always
the opposite tag. -/
theorem claim_C7 (sp : String) :
    current_platform sp = (if sp = "darwin" then "darwin" else "Windows") ∧
    current_platform "linux" = "Windows" ∧
    ((current_platform sp = "darwin" ∧ other_platform sp = "Windows") ∨
     (current_platform sp = "Windows" ∧ other_platform sp = "darwin")) := by
  refine ⟨rfl, rfl, ?_⟩
  by_cases h : sp = "darwin"
  · subst h
    exact Or.inl ⟨rfl, rfl⟩
  · exact Or.inr ⟨current_platform_of_ne h, other_platform_of_ne h⟩

/-- C8: frame of one run: variables outside the fixed list are untouched,
every recorded write is to a listed variable, the write names are free of
duplicates (each variable is written at most once), and the writes depend
only on the values of the listed variables (nothing else is read). -/
theorem claim_C8 (sp : String) (env : Env) :
    (∀ x, x ∉ var_list → (update_environment_variables sp env).1 x = env x) ∧
    (∀ p ∈ (update_environment_variables sp env).2, p.1 ∈ var_list) ∧
    (((update_environment_variables sp env).2).map Prod.fst).Nodup ∧
    (∀ env₂ : Env, (∀ v ∈ var_list, env v = env₂ v) →
      (update_environment_variables sp env).2 = (update_environment_variables sp env₂).2) := by
  have hnd : var_list.Nodup := by decide
  refine ⟨?_, ?_, ?_, ?_⟩
  · intro x hx
    exact foldEnv_notMem sp var_list (env, []) x hx
  · intro p hp
    rcases foldWrites_mem sp var_list (env, []) p hnd hp with hmem | ⟨hmem, _⟩
    · exact absurd hmem (List.not_mem_nil p)
    · exact hmem
  · have hsub : List.Sublist (((update_environment_variables sp env).2).map Prod.fst)
        var_list := by
      simpa using foldWrites_names sp var_list (env, [])
    exact hsub.nodup hnd
  · intro env₂ hagree
    exact foldWrites_reads sp var_list (env, []) (env₂, []) hagree rfl

/-- Witness for C8: a concrete run writes only `JOB`, the unrelated variable
`PATH` is untouched, the write names have no duplicates, and an environment
differing only outside the variable list produces the same writes. -/
theorem claim_C8_witness :
    (update_environment_variables "darwin"
        (fun x => if x = "JOB" then some "C:/Users/Suhail/Dropbox" else none)).1 "PATH"
      = (fun x => if x = "JOB" then some "C:/Users/Suhail/Dropbox" else none) "PATH" ∧
    (("JOB", "/Users/suhail/Library/CloudStorage/Dropbox") : String × String).1 ∈ var_list ∧
    (((update_environment_variables "darwin"
        (fun x => if x = "JOB" then some "C:/Users/Suhail/Dropbox" else none)).2).map
          Prod.fst).Nodup ∧
    (update_environment_variables "darwin"
        (fun x => if x = "JOB" then some "C:/Users/Suhail/Dropbox" else none)).2
      = (update_environment_variables "darwin"
          (fun x => if x = "JOB" then some "C:/Users/Suhail/Dropbox"
                    else if x = "HOME" then some "/home/u" else none)).2 :=
  ⟨(claim_C8 "darwin" (fun x => if x = "JOB" then some "C:/Users/Suhail/Dropbox" else none)).1
      "PATH" (by decide),
   (claim_C8 "darwin" (fun x => if x = "JOB" then some "C:/Users/Suhail/Dropbox" else none)).2.1
      ("JOB", "/Users/suhail/Library/CloudStorage/Dropbox") (by decide),
   (claim_C8 "darwin" (fun x => if x = "JOB" then some "C:/Users/Suhail/Dropbox" else none)).2.2.1,
   (claim_C8 "darwin" (fun x => if x = "JOB" then some "C:/Users/Suhail/Dropbox" else none)).2.2.2
      (fun x => if x = "JOB" then some "C:/Users/Suhail/Dropbox"
                else if x = "HOME" then some "/home/u" else none) (by decide)⟩

/-- C9: when the matching (first) entry's other-platform path occurs more
than once in the value, the single write replaces every occurrence: the
written value is the full substitution and contains no occurrence of the
other-platform path any more. -/
theorem claim_C9 (sp : String) (env : Env) (var v : String) (en : String × PathPair)
    (hvar : var ∈ var_list) (hv : env var = some v)
    (hfind : (folder_lookup.find? fun e => containsSub ((e.2).get (other_platform sp)) v)
      = some en)
    (hcount : 2 ≤ pyCount v ((en.2).get (other_platform sp))) :
    (update_environment_variables sp env).1 var
      = some (pyReplace v ((en.2).get (other_platform sp)) ((en.2).get (current_platform sp))) ∧
    pyCount (pyReplace v ((en.2).get (other_platform sp)) ((en.2).get (current_platform sp)))
      ((en.2).get (other_platform sp)) = 0 := by
  have hen : en ∈ folder_lookup := List.mem_of_find?_eq_some hfind
  have hpred := List.find?_some hfind
  have hdb : containsSub (DROPBOX.get (other_platform sp)) v = true :=
    dropboxMatchesOfEntry sp v hen (by simpa using hpred)
  have hend : en = ("DROPBOX", DROPBOX) := by
    have := findEqDropbox sp v hdb
    rw [hfind] at this
    exact Option.some_inj.mp this
  subst hend
  constructor
  · rw [envAfterRun sp env var v hvar hv, hfind]
  · show countCore _ _ _ = 0
    by_contra hne
    exact pyReplaceDropboxNoOccur sp v (infixOfCountPos _ _ _ hne)

/-- Witness for C9: a value containing the other-platform DROPBOX path twice
has both occurrences replaced by the single write. -/
theorem claim_C9_witness :
    (update_environment_variables "darwin"
        (fun x => if x = "JOB"
          then some "C:/Users/Suhail/Dropbox/x/C:/Users/Suhail/Dropbox/y" else none)).1 "JOB"
      = some (pyReplace "C:/Users/Suhail/Dropbox/x/C:/Users/Suhail/Dropbox/y"
          ((DROPBOX : PathPair).get (other_platform "darwin"))
          ((DROPBOX : PathPair).get (current_platform "darwin"))) ∧
    pyCount (pyReplace "C:/Users/Suhail/Dropbox/x/C:/Users/Suhail/Dropbox/y"
        ((DROPBOX : PathPair).get (other_platform "darwin"))
        ((DROPBOX : PathPair).get (current_platform "darwin")))
      ((DROPBOX : PathPair).get (other_platform "darwin")) = 0 :=
  claim_C9 "darwin"
    (fun x => if x = "JOB"
      then some "C:/Users/Suhail/Dropbox/x/C:/Users/Suhail/Dropbox/y" else none)
    "JOB" "C:/Users/Suhail/Dropbox/x/C:/Users/Suhail/Dropbox/y" ("DROPBOX", DROPBOX)
    (by decide) (by decide) (by decide) (by decide)

/-- C10: the run is idempotent on the environment: immediately re-running it
performs no write at all and leaves every variable's value identical, because
after one run no listed variable's value contains any entry's other-platform
path any more. -/
theorem claim_C10 (sp : String) (env : Env) :
    (update_environment_variables sp ((update_environment_variables sp env).1)).2 = [] ∧
    ∀ x, (update_environment_variables sp ((update_environment_variables sp env).1)).1 x
      = (update_environment_variables sp env).1 x := by
  have hall : ∀ v ∈ var_list,
      updateVar sp ((((update_environment_variables sp env).1,
        ([] : List (String × String))) : Env × List (String × String)).1 v) = none :=
    fun v hv => updateVarAfterRun sp env v hv
  have hfix := foldNoWrites sp var_list _ hall
  constructor
  · show (var_list.foldl (updateStep sp) ((update_environment_variables sp env).1, [])).2 = []
    rw [hfix]
  · intro x
    show (var_list.foldl (updateStep sp) ((update_environment_variables sp env).1, [])).1 x = _
    rw [hfix]
